import Mathlib

/-! Product catalogue: join, filter/sort pipeline and sort toggle.

A shallow embedding of the data-preparation logic of `src/App.jsx`:

* the module-level join `products` (lines 12-23),
* `getSortedProducts` (lines 25-56) and `getPreparedProducts` (lines 58-92),
* the state handlers of the `App` component (lines 95-155).

JavaScript values are embedded as follows.  Numeric ids are `Int`.  Strings are
`String`.  A value that may be `undefined` is an `Option`.  A computation that
may throw returns `Except JsError`.  The string built-ins whose result depends
on the Unicode tables or on the host locale (`toLowerCase`, `trim`,
`trimStart`, `localeCompare`) are fields of `Builtins`, so every statement
holds for whatever the host provides.
-/

namespace App

/-! ## Data model -/

/-- A user fixture: the records of `api/users`. -/
structure User where
  id : Int
  name : String
  sex : String
  deriving DecidableEq, Repr

/-- A category fixture: the records of `api/categories`. -/
structure Category where
  id : Int
  title : String
  icon : String
  ownerId : Int
  deriving DecidableEq, Repr

/-- A product fixture: the records of `api/products`. -/
structure Product where
  id : Int
  name : String
  categoryId : Int
  deriving DecidableEq, Repr

/-- The object built at lines 18-22: the product's own fields, the category that
was found, and the result of the user lookup, which is `undefined` (here
`none`) when `Array.prototype.find` finds nothing. -/
structure EnrichedProduct where
  id : Int
  name : String
  categoryId : Int
  category : Category
  user : Option User
  deriving DecidableEq, Repr

/-- The exceptions the code can raise: a `TypeError` from reading a property of
`undefined`, and the `Error` thrown explicitly with a message. -/
inductive JsError where
  | typeError
  | error (message : String)
  deriving DecidableEq, Repr

/-- Host-provided string operations. -/
structure Builtins where
  toLowerCase : String → String
  trim : String → String
  trimStart : String → String
  localeCompare : String → String → Int

/-! ## Array built-ins -/

/-- The method `String.prototype.includes`: the argument occurs as a contiguous run. -/
def includes (s t : String) : Bool :=
  s.data.tails.any (fun u => t.data.isPrefixOf u)

/-- The method `Array.prototype.map` with a callback that may throw: the first exception
aborts the whole call. -/
def arrayMap {α β : Type} (f : α → Except JsError β) : List α → Except JsError (List β)
  | [] => .ok []
  | a :: l =>
    match f a with
    | .error e => .error e
    | .ok b =>
      match arrayMap f l with
      | .error e => .error e
      | .ok bs => .ok (b :: bs)

/-- The method `Array.prototype.filter` with a callback that may throw. -/
def arrayFilter {α : Type} (f : α → Except JsError Bool) : List α → Except JsError (List α)
  | [] => .ok []
  | a :: l =>
    match f a with
    | .error e => .error e
    | .ok keep =>
      match arrayFilter f l with
      | .error e => .error e
      | .ok bs => .ok (if keep then a :: bs else bs)

/-- Insertion of `a` in front of the first element it does not come after. -/
def orderedInsertM {α : Type} (cmp : α → α → Except JsError Int) (a : α) :
    List α → Except JsError (List α)
  | [] => .ok [a]
  | b :: l =>
    match cmp a b with
    | .error e => .error e
    | .ok c =>
      if c ≤ 0 then .ok (a :: b :: l)
      else
        match orderedInsertM cmp a l with
        | .error e => .error e
        | .ok r => .ok (b :: r)

/-- The method `Array.prototype.sort` with a comparator.  The language requires the sort
to be stable, and for a consistent comparator that fixes the result, so a stable
insertion sort stands for the engine's algorithm.  An exception raised by the
comparator propagates; on fewer than two elements the comparator is never
called. -/
def arraySort {α : Type} (cmp : α → α → Except JsError Int) :
    List α → Except JsError (List α)
  | [] => .ok []
  | b :: l =>
    match arraySort cmp l with
    | .error e => .error e
    | .ok s => orderedInsertM cmp b s

/-! ## The join (lines 12-23) -/

/-- The callback of lines 12-23.  Reading `category.ownerId` throws when no
category was found; a user that is not found is stored as `undefined`. -/
def enrich (usersFromServer : List User) (categoriesFromServer : List Category)
    (product : Product) : Except JsError EnrichedProduct :=
  match categoriesFromServer.find? (fun item => item.id == product.categoryId) with
  | none => .error .typeError
  | some category =>
    let user := usersFromServer.find? (fun item => item.id == category.ownerId)
    .ok { id := product.id, name := product.name, categoryId := product.categoryId,
          category := category, user := user }

/-- The module-level constant `products`, as a function of the three fixtures. -/
def products (usersFromServer : List User) (categoriesFromServer : List Category)
    (productsFromServer : List Product) : Except JsError (List EnrichedProduct) :=
  arrayMap (enrich usersFromServer categoriesFromServer) productsFromServer

/-! ## Sorting (lines 25-56) -/

/-- The constant `SORT_METHODS` of line 10. -/
def SORT_METHODS : List String := ["ID", "Product", "Category", "User"]

/-- The comparator of line 30. -/
def compareId (a b : EnrichedProduct) : Except JsError Int := .ok (a.id - b.id)

/-- The comparator of lines 34-36. -/
def compareName (B : Builtins) (a b : EnrichedProduct) : Except JsError Int :=
  .ok (B.localeCompare a.name b.name)

/-- The comparator of lines 40-42. -/
def compareCategory (B : Builtins) (a b : EnrichedProduct) : Except JsError Int :=
  .ok (B.localeCompare a.category.title b.category.title)

/-- The comparator of lines 46-48: reading `.name` of an `undefined` user throws. -/
def compareUser (B : Builtins) (a b : EnrichedProduct) : Except JsError Int :=
  match a.user, b.user with
  | some ua, some ub => .ok (B.localeCompare ua.name ub.name)
  | _, _ => .error .typeError

/-- The function `getSortedProducts`: a sorted copy of the list, or the error of the
`default` branch. -/
def getSortedProducts (B : Builtins) (productList : List EnrichedProduct)
    (sortMethod : String) : Except JsError (List EnrichedProduct) :=
  if sortMethod = "ID" then arraySort compareId productList
  else if sortMethod = "Product" then arraySort (compareName B) productList
  else if sortMethod = "Category" then arraySort (compareCategory B) productList
  else if sortMethod = "User" then arraySort (compareUser B) productList
  else .error (.error "Invalid sort method")

/-! ## The pipeline (lines 58-92) -/

/-- The values the `selectedUser` entry of the filters takes: absent, `null`, the
string `'all'`, or a user object. -/
inductive SelectedUser where
  | undefined
  | null
  | all
  | user (u : User)
  deriving DecidableEq, Repr

/-- The `filters` argument of `getPreparedProducts`. -/
structure Filters where
  selectedUser : SelectedUser
  query : String
  selectedCategories : List Int
  selectedSortMethod : Option String
  isReversed : Bool
  deriving DecidableEq, Repr

/-- The callback of lines 70-72. -/
def userFilter (sel : User) (product : EnrichedProduct) : Except JsError Bool :=
  match product.user with
  | none => .error .typeError
  | some u => .ok (u.id == sel.id)

/-- The callback of lines 76-78. -/
def queryFilter (B : Builtins) (query : String) (item : EnrichedProduct) : Bool :=
  includes (B.toLowerCase item.name) (B.trim (B.toLowerCase query))

/-- Lines 69-73: the destructuring default turns an absent `selectedUser` into
`'all'`; `null` is falsy; only a user object switches the filter on. -/
def userStage (selectedUser : SelectedUser) (preparedProducts : List EnrichedProduct) :
    Except JsError (List EnrichedProduct) :=
  match selectedUser with
  | .user sel => arrayFilter (userFilter sel) preparedProducts
  | _ => .ok preparedProducts

/-- Lines 75-79: a non-empty string is truthy. -/
def queryStage (B : Builtins) (query : String) (preparedProducts : List EnrichedProduct) :
    List EnrichedProduct :=
  if query ≠ "" then preparedProducts.filter (queryFilter B query) else preparedProducts

/-- Lines 81-85. -/
def categoryStage (selectedCategories : List Int) (preparedProducts : List EnrichedProduct) :
    List EnrichedProduct :=
  if selectedCategories.length ≠ 0 then
    preparedProducts.filter (fun item => selectedCategories.contains item.categoryId)
  else preparedProducts

/-- Lines 87-89: `null` and the empty string are falsy, so the sort is skipped
for both. -/
def sortStage (B : Builtins) (selectedSortMethod : Option String)
    (preparedProducts : List EnrichedProduct) : Except JsError (List EnrichedProduct) :=
  match selectedSortMethod with
  | none => .ok preparedProducts
  | some m => if m ≠ "" then getSortedProducts B preparedProducts m else .ok preparedProducts

/-- The function `getPreparedProducts`. -/
def getPreparedProducts (B : Builtins) (productsList : List EnrichedProduct)
    (filters : Filters) : Except JsError (List EnrichedProduct) :=
  match userStage filters.selectedUser productsList with
  | .error e => .error e
  | .ok afterUser =>
    match sortStage B filters.selectedSortMethod
        (categoryStage filters.selectedCategories (queryStage B filters.query afterUser)) with
    | .error e => .error e
    | .ok preparedProducts =>
      .ok (if filters.isReversed then preparedProducts.reverse else preparedProducts)

/-! ## Component state and handlers (lines 95-155) -/

/-- The five state cells of the `App` component. -/
structure AppState where
  selectedUser : SelectedUser
  selectedCategories : List Int
  selectedSortMethod : Option String
  isReversed : Bool
  query : String
  deriving DecidableEq, Repr

/-- The initial values passed to `useState` (lines 95-99). -/
def initialState : AppState :=
  { selectedUser := .null, selectedCategories := [], selectedSortMethod := none,
    isReversed := false, query := "" }

/-- What `selectUser` is called with: nothing, the string `'all'`, a user id
(line 190), or the click event that line 179 passes. -/
inductive SelectUserArg where
  | undefined
  | all
  | id (n : Int)
  | event
  deriving DecidableEq, Repr

/-- The handler `selectUser` (lines 101-111).  On line 108 `selectUser.id` reads a property
of the handler itself, which is `undefined`, so the test holds for every id and
for the event; `find` yields `undefined` when no user has that id, and no
user's numeric id is identical to an event object. -/
def selectUser (usersFromServer : List User) (st : AppState) (id : SelectUserArg) : AppState :=
  match id with
  | .undefined => { st with selectedUser := .null }
  | .all => { st with selectedUser := .null }
  | .id n =>
    match usersFromServer.find? (fun user => user.id == n) with
    | some u => { st with selectedUser := .user u }
    | none => { st with selectedUser := .undefined }
  | .event => { st with selectedUser := .undefined }

/-- The handler `selectCategory` (lines 113-121). -/
def selectCategory (st : AppState) (id : Int) : AppState :=
  if !st.selectedCategories.contains id then
    { st with selectedCategories := st.selectedCategories ++ [id] }
  else
    { st with selectedCategories := st.selectedCategories.filter (fun categoryId => categoryId != id) }

/-- The handler `selectAllCategories` (lines 123-127). -/
def selectAllCategories (st : AppState) : AppState :=
  if st.selectedCategories.length ≠ 0 then { st with selectedCategories := [] } else st

/-- The handler `selectSortMethod` (lines 129-139). -/
def selectSortMethod (st : AppState) (method : String) : AppState :=
  if st.selectedSortMethod ≠ some method then
    { st with selectedSortMethod := some method, isReversed := false }
  else if st.selectedSortMethod = some method ∧ st.isReversed = false then
    { st with isReversed := true }
  else
    { st with selectedSortMethod := none, isReversed := false }

/-- The handler `updateQuery` (lines 141-145). -/
def updateQuery (B : Builtins) (st : AppState) (newQuery : String) : AppState :=
  if B.trimStart newQuery ≠ st.query then { st with query := B.trimStart newQuery } else st

/-- The handler `resetQuery` (lines 147-149). -/
def resetQuery (st : AppState) : AppState :=
  { st with query := "" }

/-- The handler `resetFilters` (lines 151-155). -/
def resetFilters (st : AppState) : AppState :=
  { st with selectedUser := .null, query := "", selectedCategories := [] }

/-- The filters object the component passes to the pipeline (lines 157-163). -/
def filtersOf (st : AppState) : Filters :=
  { selectedUser := st.selectedUser, query := st.query,
    selectedCategories := st.selectedCategories,
    selectedSortMethod := st.selectedSortMethod, isReversed := st.isReversed }

/-- One call of a state handler. -/
inductive Action where
  | selectUser (id : SelectUserArg)
  | selectCategory (id : Int)
  | selectAllCategories
  | selectSortMethod (method : String)
  | updateQuery (newQuery : String)
  | resetQuery
  | resetFilters
  deriving DecidableEq, Repr

/-- The state after one handler call. -/
def step (B : Builtins) (usersFromServer : List User) (st : AppState) : Action → AppState
  | .selectUser id => selectUser usersFromServer st id
  | .selectCategory id => selectCategory st id
  | .selectAllCategories => selectAllCategories st
  | .selectSortMethod method => selectSortMethod st method
  | .updateQuery newQuery => updateQuery B st newQuery
  | .resetQuery => resetQuery st
  | .resetFilters => resetFilters st

/-- The state reached from the initial one by a sequence of handler calls. -/
def run (B : Builtins) (usersFromServer : List User) (actions : List Action) : AppState :=
  actions.foldl (step B usersFromServer) initialState

/-- The two cells the sort toggle works on. -/
def sortPair (st : AppState) : Option String × Bool :=
  (st.selectedSortMethod, st.isReversed)

/-! ## Specification-side notions -/

/-- The user filter in the words of the specification: when a user is selected,
the record's user id equals the selected user's id; otherwise every record is
accepted. -/
def acceptsUser (selectedUser : SelectedUser) (p : EnrichedProduct) : Bool :=
  match selectedUser with
  | .user sel => decide (p.user.map User.id = some sel.id)
  | _ => true

/-- The text search in the words of the specification: when the query is not
empty, the lower-cased name contains the lower-cased, trimmed query. -/
def acceptsQuery (B : Builtins) (query : String) (p : EnrichedProduct) : Bool :=
  if query = "" then true
  else includes (B.toLowerCase p.name) (B.trim (B.toLowerCase query))

/-- The category filter in the words of the specification: when some categories
are selected, the record's category id is one of them. -/
def acceptsCategory (selectedCategories : List Int) (p : EnrichedProduct) : Bool :=
  if selectedCategories = [] then true
  else decide (p.categoryId ∈ selectedCategories)

/-- The conjunction of the three filters; one that is not active accepts every
record. -/
def satisfiesActiveFilters (B : Builtins) (filters : Filters) (p : EnrichedProduct) : Bool :=
  acceptsUser filters.selectedUser p && acceptsQuery B filters.query p &&
    acceptsCategory filters.selectedCategories p

/-- The list `ys` is a stable ascending arrangement of `xs` for the key `key` ordered
by `le`: a permutation, non-decreasing in the key, and for every key value `k` the
records whose key ties with `k` come in the same order in `ys` as in `xs`. -/
def StableAscending {κ : Type} (key : EnrichedProduct → κ) (le : κ → κ → Bool)
    (xs ys : List EnrichedProduct) : Prop :=
  ys.Perm xs ∧
  ys.Pairwise (fun a b => le (key a) (key b) = true) ∧
  ∀ k : κ, ys.filter (fun p => le k (key p) && le (key p) k) =
    xs.filter (fun p => le k (key p) && le (key p) k)

/-- The order on names given by `localeCompare`. -/
def nameLe (B : Builtins) (s t : String) : Bool :=
  decide (B.localeCompare s t ≤ 0)

/-- The order on owner names; an unresolved owner is not comparable. -/
def ownerNameLe (B : Builtins) (s t : Option String) : Bool :=
  match s, t with
  | some x, some y => nameLe B x y
  | _, _ => false

/-- The comparator is consistent: swapping the arguments swaps the sign, and
"not after" is transitive.  Every total order on strings satisfies this. -/
def ConsistentComparator {κ : Type} (cmp : κ → κ → Int) : Prop :=
  (∀ s t, cmp s t < 0 ↔ 0 < cmp t s) ∧
  (∀ s t u, cmp s t ≤ 0 → cmp t u ≤ 0 → cmp s u ≤ 0)

/-! ## A concrete host and the fixtures of the specification's examples -/

/-- Comparison of two strings by code point, position by position. -/
def codePointCompare : List Char → List Char → Int
  | [], [] => 0
  | [], _ :: _ => -1
  | _ :: _, [] => 1
  | a :: s, b :: t =>
    if a.toNat < b.toNat then -1
    else if b.toNat < a.toNat then 1
    else codePointCompare s t

/-- A host restricted to ASCII: letters `A`-`Z` are lower-cased, blanks are
trimmed, and strings are compared by code point. -/
def asciiBuiltins : Builtins where
  toLowerCase := fun s => String.mk (s.data.map Char.toLower)
  trim := fun s =>
    String.mk ((s.data.dropWhile Char.isWhitespace).reverse.dropWhile Char.isWhitespace).reverse
  trimStart := fun s => String.mk (s.data.dropWhile Char.isWhitespace)
  localeCompare := fun s t => codePointCompare s.data t.data

/-- The user of the specification's example. -/
def max : User := { id := 1, name := "Max", sex := "m" }

/-- The category of the specification's example. -/
def food : Category := { id := 1, title := "Food", icon := "-", ownerId := 1 }

/-- The first product of the specification's example. -/
def breadProduct : Product := { id := 1, name := "Bread", categoryId := 1 }

/-- The second product of the specification's example. -/
def appleProduct : Product := { id := 2, name := "Apple", categoryId := 1 }

/-- The enriched record of the first product. -/
def bread : EnrichedProduct :=
  { id := 1, name := "Bread", categoryId := 1, category := food, user := some max }

/-- The enriched record of the second product. -/
def apple : EnrichedProduct :=
  { id := 2, name := "Apple", categoryId := 1, category := food, user := some max }

/-- A filter state with nothing selected. -/
def noFilters : Filters :=
  { selectedUser := .null, query := "", selectedCategories := [],
    selectedSortMethod := none, isReversed := false }

/-! ## The join: lemmas -/

theorem arrayMap_error {α β : Type} (f : α → Except JsError β) (e : JsError)
    (hf : ∀ a e1, f a = .error e1 → e1 = e) :
    ∀ l : List α, (∃ a ∈ l, ∃ e1, f a = .error e1) → arrayMap f l = .error e
  | [], h => by
    obtain ⟨a, ha, _⟩ := h
    cases ha
  | a :: l, h => by
    cases hfa : f a with
    | error e1 =>
      have := hf a e1 hfa
      subst this
      simp [arrayMap, hfa]
    | ok b =>
      have hl : arrayMap f l = .error e := by
        apply arrayMap_error f e hf l
        obtain ⟨x, hx, e1, hxe⟩ := h
        rcases List.mem_cons.mp hx with rfl | hx
        · rw [hfa] at hxe
          cases hxe
        · exact ⟨x, hx, e1, hxe⟩
      simp [arrayMap, hfa, hl]

theorem arrayMap_forall₂ {α β : Type} (f : α → Except JsError β) (R : α → β → Prop) :
    ∀ l : List α, (∀ a ∈ l, ∃ b, f a = .ok b ∧ R a b) →
      ∃ bs, arrayMap f l = .ok bs ∧ List.Forall₂ R l bs
  | [], _ => ⟨[], rfl, List.Forall₂.nil⟩
  | a :: l, h => by
    obtain ⟨b, hb, hR⟩ := h a (List.mem_cons_self a l)
    obtain ⟨bs, hbs, hRs⟩ :=
      arrayMap_forall₂ f R l (fun x hx => h x (List.mem_cons_of_mem a hx))
    exact ⟨b :: bs, by simp [arrayMap, hb, hbs], List.Forall₂.cons hR hRs⟩

theorem forall₂_getElem? {α β : Type} {R : α → β → Prop} {l : List α} {bs : List β}
    (h : List.Forall₂ R l bs) :
    ∀ (i : Nat) (a : α), l[i]? = some a → ∃ b, bs[i]? = some b ∧ R a b := by
  induction h with
  | nil => intro i a hi; simp at hi
  | cons hR _ ih =>
    intro i a hi
    cases i with
    | zero =>
      simp only [List.getElem?_cons_zero, Option.some.injEq] at hi
      subst hi
      exact ⟨_, by simp, hR⟩
    | succ n =>
      simp only [List.getElem?_cons_succ] at hi
      obtain ⟨b, hb, hRb⟩ := ih n a hi
      exact ⟨b, by simpa using hb, hRb⟩

theorem forall₂_right {α β : Type} {P : β → Prop} {l : List α} {bs : List β}
    (h : List.Forall₂ (fun _ b => P b) l bs) : ∀ b ∈ bs, P b := by
  induction h with
  | nil => intro b hb; cases hb
  | cons hP _ ih =>
    intro b hb
    rcases List.mem_cons.mp hb with rfl | hb
    · exact hP
    · exact ih b hb

theorem find?_id_some {α : Type} (key : α → Int) (l : List α) (k : Int)
    (h : ∃ a ∈ l, key a = k) : ∃ a, l.find? (fun item => key item == k) = some a := by
  obtain ⟨a, ha, hk⟩ := h
  cases hf : l.find? (fun item => key item == k) with
  | some b => exact ⟨b, rfl⟩
  | none =>
    rw [List.find?_eq_none] at hf
    exact absurd (by simpa using hk) (hf a ha)

theorem find?_id_spec {α : Type} (key : α → Int) (l : List α) (k : Int) (a : α)
    (h : l.find? (fun item => key item == k) = some a) : a ∈ l ∧ key a = k :=
  ⟨List.mem_of_find?_eq_some h, by simpa using List.find?_some h⟩

theorem find?_id_none {α : Type} (key : α → Int) (l : List α) (k : Int) :
    l.find? (fun item => key item == k) = none ↔ ∀ a ∈ l, key a ≠ k := by
  rw [List.find?_eq_none]
  constructor
  · intro h a ha; simpa using h a ha
  · intro h a ha; simpa using h a ha

theorem enrich_ok (us : List User) (cs : List Category) (p : Product) (c : Category)
    (hc : cs.find? (fun item => item.id == p.categoryId) = some c) :
    enrich us cs p =
      .ok { id := p.id, name := p.name, categoryId := p.categoryId, category := c,
            user := us.find? (fun item => item.id == c.ownerId) } := by
  unfold enrich
  rw [hc]

/-! ## The join: claims -/

/-- C5. When every product's `categoryId` is the id of some category, and the
categories with that id have an `ownerId` that is the id of some user, the join
returns a list as long as the product list whose i-th record carries the i-th
product's fields, a category of the fixtures whose id is the product's
`categoryId`, and a user of the fixtures whose id is that category's `ownerId`. -/
theorem products_resolved (us : List User) (cs : List Category) (ps : List Product)
    (h : ∀ p ∈ ps, (∃ c ∈ cs, c.id = p.categoryId) ∧
      ∀ c ∈ cs, c.id = p.categoryId → ∃ u ∈ us, u.id = c.ownerId) :
    ∃ es, products us cs ps = .ok es ∧ es.length = ps.length ∧
      ∀ (i : Nat) (p : Product), ps[i]? = some p →
        ∃ e, es[i]? = some e ∧
          e.id = p.id ∧ e.name = p.name ∧ e.categoryId = p.categoryId ∧
          e.category ∈ cs ∧ e.category.id = p.categoryId ∧
          ∃ u ∈ us, e.user = some u ∧ u.id = e.category.ownerId := by
  obtain ⟨es, hes, hR⟩ := arrayMap_forall₂ (enrich us cs)
    (fun p e => e.id = p.id ∧ e.name = p.name ∧ e.categoryId = p.categoryId ∧
          e.category ∈ cs ∧ e.category.id = p.categoryId ∧
          ∃ u ∈ us, e.user = some u ∧ u.id = e.category.ownerId) ps
    (by
      intro p hp
      obtain ⟨hex, hall⟩ := h p hp
      obtain ⟨c, hc⟩ := find?_id_some Category.id cs p.categoryId hex
      obtain ⟨hcmem, hcid⟩ := find?_id_spec Category.id cs p.categoryId c hc
      obtain ⟨u, hu⟩ := find?_id_some User.id us c.ownerId (hall c hcmem hcid)
      obtain ⟨humem, huid⟩ := find?_id_spec User.id us c.ownerId u hu
      exact ⟨_, enrich_ok us cs p c hc, rfl, rfl, rfl, hcmem, hcid, u, humem, hu, huid⟩)
  exact ⟨es, hes, hR.length_eq.symm, forall₂_getElem? hR⟩

/-- C5, at the fixtures of the specification's example. -/
theorem products_resolved_witness :
    ∃ es, products [max] [food] [breadProduct, appleProduct] = .ok es ∧
      es.length = [breadProduct, appleProduct].length ∧
      ∀ (i : Nat) (p : Product), [breadProduct, appleProduct][i]? = some p →
        ∃ e, es[i]? = some e ∧
          e.id = p.id ∧ e.name = p.name ∧ e.categoryId = p.categoryId ∧
          e.category ∈ [food] ∧ e.category.id = p.categoryId ∧
          ∃ u ∈ [max], e.user = some u ∧ u.id = e.category.ownerId :=
  products_resolved [max] [food] [breadProduct, appleProduct] (by decide)

/-- C6. When some product's `categoryId` is the id of no category, the join
fails: reading `ownerId` of the missing category raises a `TypeError`, and no
list is returned. -/
theorem products_missing_category (us : List User) (cs : List Category) (ps : List Product)
    (h : ∃ p ∈ ps, ∀ c ∈ cs, c.id ≠ p.categoryId) :
    products us cs ps = .error .typeError := by
  unfold products
  apply arrayMap_error
  · intro a e1 he
    unfold enrich at he
    split at he
    · cases he; rfl
    · cases he
  · obtain ⟨p, hp, hno⟩ := h
    refine ⟨p, hp, .typeError, ?_⟩
    unfold enrich
    rw [(find?_id_none Category.id cs p.categoryId).mpr hno]

/-- C6, at a product that refers to category 2 when only category 1 exists. -/
theorem products_missing_category_witness :
    products [max] [food] [breadProduct, { id := 3, name := "Soap", categoryId := 2 }] =
      .error .typeError :=
  products_missing_category [max] [food]
    [breadProduct, { id := 3, name := "Soap", categoryId := 2 }] (by decide)

/-- C7, refuted. The category is found and its `ownerId` 1 is the id of no user
(the only user has id 2), yet the join returns a record whose user is unresolved. -/
theorem products_missing_owner_counterexample :
    (∀ u ∈ [({ id := 2, name := "Anna", sex := "f" } : User)], u.id ≠ food.ownerId) ∧
    products [{ id := 2, name := "Anna", sex := "f" }] [food] [breadProduct] =
      .ok [{ id := 1, name := "Bread", categoryId := 1, category := food, user := none }] :=
  ⟨by decide, rfl⟩

/-- C7, amended. When every product's `categoryId` is the id of some category,
the join does not fail: it returns one record per product, and the user of a
record is unresolved exactly when its category's `ownerId` is the id of no user. -/
theorem products_unresolved_owner (us : List User) (cs : List Category) (ps : List Product)
    (h : ∀ p ∈ ps, ∃ c ∈ cs, c.id = p.categoryId) :
    ∃ es, products us cs ps = .ok es ∧ es.length = ps.length ∧
      ∀ e ∈ es, (e.user = none ↔ ∀ u ∈ us, u.id ≠ e.category.ownerId) := by
  obtain ⟨es, hes, hR⟩ := arrayMap_forall₂ (enrich us cs)
    (fun _ e => e.user = none ↔ ∀ u ∈ us, u.id ≠ e.category.ownerId) ps
    (by
      intro p hp
      obtain ⟨c, hc⟩ := find?_id_some Category.id cs p.categoryId (h p hp)
      exact ⟨_, enrich_ok us cs p c hc, find?_id_none User.id us c.ownerId⟩)
  exact ⟨es, hes, hR.length_eq.symm, forall₂_right hR⟩

/-- C7 amended, at the fixtures of the counterexample. -/
theorem products_unresolved_owner_witness :
    ∃ es, products [{ id := 2, name := "Anna", sex := "f" }] [food] [breadProduct] = .ok es ∧
      es.length = [breadProduct].length ∧
      ∀ e ∈ es, (e.user = none ↔
        ∀ u ∈ [({ id := 2, name := "Anna", sex := "f" } : User)], u.id ≠ e.category.ownerId) :=
  products_unresolved_owner [{ id := 2, name := "Anna", sex := "f" }] [food] [breadProduct]
    (by decide)

/-! ## The sort toggle -/

/-- C4. The handler `selectSortMethod` as a transition on the pair
(sort method, reversed): a method that is not the active one becomes active,
not reversed; the active method, not reversed, becomes reversed; the active
method, reversed, is cleared.  Three selections of one method from the
cleared pair go through ascending and descending and come back. -/
theorem selectSortMethod_cycle (st : AppState) (m : String) :
    (st.selectedSortMethod ≠ some m →
      sortPair (selectSortMethod st m) = (some m, false)) ∧
    (st.selectedSortMethod = some m → st.isReversed = false →
      sortPair (selectSortMethod st m) = (some m, true)) ∧
    (st.selectedSortMethod = some m → st.isReversed = true →
      sortPair (selectSortMethod st m) = (none, false)) ∧
    (sortPair st = (none, false) →
      sortPair (selectSortMethod st m) = (some m, false) ∧
      sortPair (selectSortMethod (selectSortMethod st m) m) = (some m, true) ∧
      sortPair (selectSortMethod (selectSortMethod (selectSortMethod st m) m) m) =
        (none, false)) := by
  refine ⟨?_, ?_, ?_, ?_⟩
  · intro h
    simp [selectSortMethod, sortPair, h]
  · intro h hr
    simp [selectSortMethod, sortPair, h, hr]
  · intro h hr
    simp [selectSortMethod, sortPair, h, hr]
  · intro h
    simp only [sortPair, Prod.mk.injEq] at h
    obtain ⟨h1, h2⟩ := h
    simp [selectSortMethod, sortPair, h1, h2]

/-- C4, at the method `ID`: from the initial state, from ascending by `ID`, from
descending by `ID`, and from ascending by `User`. -/
theorem selectSortMethod_cycle_witness :
    sortPair (selectSortMethod { initialState with selectedSortMethod := some "User" } "ID") =
      (some "ID", false) ∧
    sortPair (selectSortMethod { initialState with selectedSortMethod := some "ID" } "ID") =
      (some "ID", true) ∧
    sortPair (selectSortMethod
      { initialState with selectedSortMethod := some "ID", isReversed := true } "ID") =
      (none, false) ∧
    (sortPair (selectSortMethod initialState "ID") = (some "ID", false) ∧
      sortPair (selectSortMethod (selectSortMethod initialState "ID") "ID") =
        (some "ID", true) ∧
      sortPair (selectSortMethod
        (selectSortMethod (selectSortMethod initialState "ID") "ID") "ID") = (none, false)) :=
  ⟨(selectSortMethod_cycle { initialState with selectedSortMethod := some "User" } "ID").1
      (by decide),
   (selectSortMethod_cycle { initialState with selectedSortMethod := some "ID" } "ID").2.1
      rfl rfl,
   (selectSortMethod_cycle
      { initialState with selectedSortMethod := some "ID", isReversed := true } "ID").2.2.1
      rfl rfl,
   (selectSortMethod_cycle initialState "ID").2.2.2 rfl⟩

/-- The invariant of the two sort cells: the active method, if any, satisfies
`P`, and a set `isReversed` comes with an active method. -/
theorem step_preserves (B : Builtins) (us : List User) (P : String → Prop) (st : AppState)
    (a : Action) (ha : ∀ m, a = .selectSortMethod m → P m)
    (h : (∀ m, st.selectedSortMethod = some m → P m) ∧
      (st.isReversed = true → st.selectedSortMethod ≠ none)) :
    (∀ m, (step B us st a).selectedSortMethod = some m → P m) ∧
      ((step B us st a).isReversed = true → (step B us st a).selectedSortMethod ≠ none) := by
  cases a with
  | selectUser id =>
    cases id with
    | undefined => exact h
    | all => exact h
    | id n =>
      simp only [step, selectUser]
      split <;> exact h
    | event => exact h
  | selectCategory id =>
    simp only [step, selectCategory]
    split <;> exact h
  | selectAllCategories =>
    simp only [step, selectAllCategories]
    split <;> exact h
  | selectSortMethod method =>
    have hP : P method := ha method rfl
    simp only [step, selectSortMethod]
    split
    · refine ⟨?_, by simp⟩
      intro m hm
      simp only [Option.some.injEq] at hm
      exact hm ▸ hP
    · split
      · rename_i h1 h2
        refine ⟨h.1, ?_⟩
        intro _
        rw [h2.1]
        simp
      · simp
  | updateQuery newQuery =>
    simp only [step, updateQuery]
    split <;> exact h
  | resetQuery => exact h
  | resetFilters => exact h

theorem foldl_preserves (B : Builtins) (us : List User) (P : String → Prop)
    (actions : List Action) (ha : ∀ a ∈ actions, ∀ m, a = .selectSortMethod m → P m) :
    ∀ st : AppState,
      ((∀ m, st.selectedSortMethod = some m → P m) ∧
        (st.isReversed = true → st.selectedSortMethod ≠ none)) →
      ((∀ m, (actions.foldl (step B us) st).selectedSortMethod = some m → P m) ∧
        ((actions.foldl (step B us) st).isReversed = true →
          (actions.foldl (step B us) st).selectedSortMethod ≠ none)) := by
  induction actions with
  | nil => intro st h; exact h
  | cons a l ih =>
    intro st h
    exact ih (fun x hx => ha x (List.mem_cons_of_mem a hx)) (step B us st a)
      (step_preserves B us P st a (ha a (List.mem_cons_self a l)) h)

/-- C10. In every state reached from the initial one by handler calls, a set
`isReversed` comes with a sort method that is not `null`, and so do the
filters handed to the pipeline; when the methods selected are those of
`SORT_METHODS`, as in the table header, the method is one the sort stage
applies; and `resetFilters` changes neither of the two cells. -/
theorem reversed_has_method (B : Builtins) (us : List User) (actions : List Action) :
    ((run B us actions).isReversed = true → (run B us actions).selectedSortMethod ≠ none) ∧
    ((filtersOf (run B us actions)).isReversed = true →
      (filtersOf (run B us actions)).selectedSortMethod ≠ none) ∧
    ((∀ a ∈ actions, ∀ m, a = .selectSortMethod m → m ∈ SORT_METHODS) →
      (filtersOf (run B us actions)).isReversed = true →
      ∃ m ∈ SORT_METHODS, (filtersOf (run B us actions)).selectedSortMethod = some m) ∧
    (∀ st : AppState, sortPair (resetFilters st) = sortPair st) := by
  have h := (foldl_preserves B us (fun _ => True) actions (fun _ _ _ _ => trivial)
    initialState (by simp [initialState])).2
  refine ⟨h, h, ?_, fun _ => rfl⟩
  intro hall hrev
  have h2 := foldl_preserves B us (fun m => m ∈ SORT_METHODS) actions hall
    initialState (by simp [initialState])
  cases hm : (run B us actions).selectedSortMethod with
  | none => exact absurd hm (h hrev)
  | some m => exact ⟨m, h2.1 m hm, hm⟩

/-- C10, after selecting `ID` twice, typing a query and resetting the filters:
the list is shown reversed and the method is still `ID`. -/
theorem reversed_has_method_witness :
    (run asciiBuiltins [max]
      [.selectSortMethod "ID", .selectSortMethod "ID", .updateQuery " ap",
       .resetFilters]).isReversed = true ∧
    (run asciiBuiltins [max]
      [.selectSortMethod "ID", .selectSortMethod "ID", .updateQuery " ap",
       .resetFilters]).selectedSortMethod ≠ none ∧
    ∃ m ∈ SORT_METHODS, (filtersOf (run asciiBuiltins [max]
      [.selectSortMethod "ID", .selectSortMethod "ID", .updateQuery " ap",
       .resetFilters])).selectedSortMethod = some m :=
  ⟨by decide,
   (reversed_has_method asciiBuiltins [max]
      [.selectSortMethod "ID", .selectSortMethod "ID", .updateQuery " ap",
       .resetFilters]).1 (by decide),
   (reversed_has_method asciiBuiltins [max]
      [.selectSortMethod "ID", .selectSortMethod "ID", .updateQuery " ap",
       .resetFilters]).2.2.1
      (by
        intro a ha m hm
        subst hm
        simp only [List.mem_cons, Action.selectSortMethod.injEq, List.mem_singleton,
          reduceCtorEq, or_false, or_self, List.not_mem_nil] at ha
        subst ha
        decide)
      (by decide)⟩

/-! ## The pipeline: lemmas -/

theorem arrayFilter_ok {α : Type} (f : α → Except JsError Bool) (g : α → Bool) :
    ∀ l : List α, (∀ a ∈ l, f a = .ok (g a)) → arrayFilter f l = .ok (l.filter g)
  | [], _ => rfl
  | a :: l, h => by
    have ha : f a = .ok (g a) := h a (List.mem_cons_self a l)
    have hl : arrayFilter f l = .ok (l.filter g) :=
      arrayFilter_ok f g l (fun x hx => h x (List.mem_cons_of_mem a hx))
    cases hg : g a <;> simp [arrayFilter, ha, hl, hg, List.filter_cons]

theorem userFilter_ok (sel : User) (p : EnrichedProduct) (h : p.user ≠ none) :
    userFilter sel p = .ok (decide (p.user.map User.id = some sel.id)) := by
  unfold userFilter
  cases hu : p.user with
  | none => exact absurd hu h
  | some u =>
    simp only [Option.map_some', Option.some.injEq]
    rfl

theorem userStage_ok (su : SelectedUser) (xs : List EnrichedProduct)
    (hres : ∀ u, su = .user u → ∀ p ∈ xs, p.user ≠ none) :
    userStage su xs = .ok (xs.filter (acceptsUser su)) := by
  cases su with
  | user sel =>
    simp only [userStage]
    exact arrayFilter_ok _ _ xs (fun p hp => userFilter_ok sel p (hres sel rfl p hp))
  | undefined =>
    simp only [userStage]
    exact congrArg _ (List.filter_eq_self.mpr (fun _ _ => rfl)).symm
  | null =>
    simp only [userStage]
    exact congrArg _ (List.filter_eq_self.mpr (fun _ _ => rfl)).symm
  | all =>
    simp only [userStage]
    exact congrArg _ (List.filter_eq_self.mpr (fun _ _ => rfl)).symm

theorem queryStage_eq (B : Builtins) (q : String) (xs : List EnrichedProduct) :
    queryStage B q xs = xs.filter (acceptsQuery B q) := by
  unfold queryStage
  by_cases hq : q = ""
  · subst hq
    simp only [ne_eq, not_true_eq_false, if_false]
    exact (List.filter_eq_self.mpr (fun _ _ => rfl)).symm
  · simp only [ne_eq, hq, not_false_eq_true, if_true]
    apply List.filter_congr
    intro p _
    simp [queryFilter, acceptsQuery, hq]

theorem categoryStage_eq (cats : List Int) (xs : List EnrichedProduct) :
    categoryStage cats xs = xs.filter (acceptsCategory cats) := by
  unfold categoryStage
  cases cats with
  | nil =>
    simp only [List.length_nil, ne_eq, not_true_eq_false, if_false]
    exact (List.filter_eq_self.mpr (fun _ _ => rfl)).symm
  | cons c l =>
    simp only [List.length_cons, ne_eq, Nat.add_one_ne_zero, not_false_eq_true, if_true]
    apply List.filter_congr
    intro p _
    simp [acceptsCategory]

theorem stages_eq (B : Builtins) (xs : List EnrichedProduct) (filters : Filters)
    (hres : ∀ u, filters.selectedUser = .user u → ∀ p ∈ xs, p.user ≠ none) :
    ∃ zs, userStage filters.selectedUser xs = .ok zs ∧ (∀ p ∈ zs, p ∈ xs) ∧
      categoryStage filters.selectedCategories (queryStage B filters.query zs) =
        xs.filter (satisfiesActiveFilters B filters) := by
  refine ⟨_, userStage_ok filters.selectedUser xs hres,
    fun p hp => (List.mem_filter.mp hp).1, ?_⟩
  rw [queryStage_eq, categoryStage_eq, List.filter_filter, List.filter_filter]
  apply List.filter_congr
  intro p _
  unfold satisfiesActiveFilters
  cases acceptsUser filters.selectedUser p <;> cases acceptsQuery B filters.query p <;>
    cases acceptsCategory filters.selectedCategories p <;> rfl

theorem prepared_unsorted (B : Builtins) (xs : List EnrichedProduct) (filters : Filters)
    (hsort : filters.selectedSortMethod = none) (hrev : filters.isReversed = false)
    (hres : ∀ u, filters.selectedUser = .user u → ∀ p ∈ xs, p.user ≠ none) :
    getPreparedProducts B xs filters = .ok (xs.filter (satisfiesActiveFilters B filters)) := by
  obtain ⟨zs, hz, _, hf⟩ := stages_eq B xs filters hres
  unfold getPreparedProducts
  rw [hz]
  simp only [hsort, sortStage, hrev, hf]
  rfl

/-! ## Sorting: lemmas -/

theorem orderedInsertM_pure {α : Type} (cmp : α → α → Except JsError Int) (c : α → α → Int)
    (a : α) : ∀ l : List α, (∀ b ∈ l, cmp a b = .ok (c a b)) →
      orderedInsertM cmp a l = .ok (l.orderedInsert (fun x y => c x y ≤ 0) a)
  | [], _ => rfl
  | b :: l, h => by
    have hb : cmp a b = .ok (c a b) := h b (List.mem_cons_self b l)
    have hl := orderedInsertM_pure cmp c a l (fun x hx => h x (List.mem_cons_of_mem b hx))
    by_cases hc : c a b ≤ 0
    · simp [orderedInsertM, hb, hc]
    · simp [orderedInsertM, hb, hc, hl]

theorem arraySort_pure {α : Type} (cmp : α → α → Except JsError Int) (c : α → α → Int) :
    ∀ l : List α, (∀ a ∈ l, ∀ b ∈ l, cmp a b = .ok (c a b)) →
      arraySort cmp l = .ok (l.insertionSort (fun x y => c x y ≤ 0))
  | [], _ => rfl
  | b :: l, h => by
    have hl := arraySort_pure cmp c l
      (fun x hx y hy => h x (List.mem_cons_of_mem b hx) y (List.mem_cons_of_mem b hy))
    simp only [arraySort, hl, List.insertionSort]
    apply orderedInsertM_pure
    intro x hx
    exact h b (List.mem_cons_self b l) x
      (List.mem_cons_of_mem b ((List.mem_insertionSort _).mp hx))

theorem compareUser_pure (B : Builtins) (a b : EnrichedProduct)
    (ha : a.user ≠ none) (hb : b.user ≠ none) :
    compareUser B a b =
      .ok (B.localeCompare ((a.user.map User.name).getD "") ((b.user.map User.name).getD "")) := by
  unfold compareUser
  cases hua : a.user with
  | none => exact absurd hua ha
  | some ua =>
    cases hub : b.user with
    | none => exact absurd hub hb
    | some ub => rfl

theorem getSortedProducts_ok (B : Builtins) (xs : List EnrichedProduct) (m : String)
    (hm : m ∈ SORT_METHODS) (hres : ∀ p ∈ xs, p.user ≠ none) :
    ∃ ys, getSortedProducts B xs m = .ok ys := by
  simp only [SORT_METHODS, List.mem_cons, List.mem_singleton, List.not_mem_nil,
    or_false] at hm
  rcases hm with rfl | rfl | rfl | rfl
  · exact ⟨_, arraySort_pure compareId (fun a b => a.id - b.id) xs (fun _ _ _ _ => rfl)⟩
  · exact ⟨_, arraySort_pure (compareName B) (fun a b => B.localeCompare a.name b.name) xs
      (fun _ _ _ _ => rfl)⟩
  · exact ⟨_, arraySort_pure (compareCategory B)
      (fun a b => B.localeCompare a.category.title b.category.title) xs (fun _ _ _ _ => rfl)⟩
  · exact ⟨_, arraySort_pure (compareUser B)
      (fun a b => B.localeCompare ((a.user.map User.name).getD "")
        ((b.user.map User.name).getD "")) xs
      (fun a ha b hb => compareUser_pure B a b (hres a ha) (hres b hb))⟩

theorem getSortedProducts_invalid (B : Builtins) (xs : List EnrichedProduct) (m : String)
    (hm : m ∉ SORT_METHODS) :
    getSortedProducts B xs m = .error (.error "Invalid sort method") := by
  simp only [SORT_METHODS, List.mem_cons, List.mem_singleton, List.not_mem_nil,
    or_false, not_or] at hm
  obtain ⟨h1, h2, h3, h4⟩ := hm
  simp [getSortedProducts, h1, h2, h3, h4]

theorem categoryStage_subset (cats : List Int) (xs : List EnrichedProduct) :
    ∀ p ∈ categoryStage cats xs, p ∈ xs := by
  intro p hp
  rw [categoryStage_eq] at hp
  exact (List.mem_filter.mp hp).1

theorem queryStage_subset (B : Builtins) (q : String) (xs : List EnrichedProduct) :
    ∀ p ∈ queryStage B q xs, p ∈ xs := by
  intro p hp
  rw [queryStage_eq] at hp
  exact (List.mem_filter.mp hp).1

theorem prepared_reverse (B : Builtins) (xs : List EnrichedProduct) (filters : Filters)
    (hm : filters.selectedSortMethod = none ∨
      ∃ m ∈ SORT_METHODS, filters.selectedSortMethod = some m)
    (hres : ∀ p ∈ xs, p.user ≠ none) :
    ∃ ys, getPreparedProducts B xs { filters with isReversed := false } = .ok ys ∧
      getPreparedProducts B xs { filters with isReversed := true } = .ok ys.reverse := by
  obtain ⟨zs, hz, hsub, _⟩ := stages_eq B xs filters (fun _ _ => hres)
  have hsorted : ∃ ys, sortStage B filters.selectedSortMethod
      (categoryStage filters.selectedCategories (queryStage B filters.query zs)) = .ok ys := by
    rcases hm with h | ⟨m, hmem, h⟩
    · rw [h]; exact ⟨_, rfl⟩
    · rw [h]
      simp only [sortStage]
      split
      · apply getSortedProducts_ok B _ m hmem
        intro p hp
        exact hres p (hsub p (queryStage_subset B _ _ p (categoryStage_subset _ _ p hp)))
      · exact ⟨_, rfl⟩
  obtain ⟨ys, hys⟩ := hsorted
  refine ⟨ys, ?_, ?_⟩
  · simp [getPreparedProducts, hz, hys]
  · simp [getPreparedProducts, hz, hys]

/-! ## The pipeline: claims -/

/-- C1. With no sort method and `isReversed = false`, on a list whose users are
all resolved, `getPreparedProducts` returns exactly the input records that
satisfy every active filter, in their input order. -/
theorem getPreparedProducts_filters (B : Builtins) (xs : List EnrichedProduct)
    (filters : Filters) (hsort : filters.selectedSortMethod = none)
    (hrev : filters.isReversed = false) (hres : ∀ p ∈ xs, p.user ≠ none) :
    getPreparedProducts B xs filters =
      .ok (xs.filter (satisfiesActiveFilters B filters)) :=
  prepared_unsorted B xs filters hsort hrev (fun _ _ => hres)

/-- C1, at the specification's example: the user Max selected, the query
`" APP "` and category 1 selected keep the Apple record only. -/
theorem getPreparedProducts_filters_witness :
    getPreparedProducts asciiBuiltins [bread, apple]
      { selectedUser := .user max, query := " APP ", selectedCategories := [1],
        selectedSortMethod := none, isReversed := false } = .ok [apple] :=
  (getPreparedProducts_filters asciiBuiltins [bread, apple]
    { selectedUser := .user max, query := " APP ", selectedCategories := [1],
      selectedSortMethod := none, isReversed := false } rfl rfl (by decide)).trans rfl

/-- C9. With a non-empty query and nothing else active, running
`getPreparedProducts` on its own result gives that result again. -/
theorem getPreparedProducts_query_idempotent (B : Builtins) (xs : List EnrichedProduct)
    (filters : Filters) (_hq : filters.query ≠ "")
    (huser : ∀ u, filters.selectedUser ≠ .user u)
    (_hcats : filters.selectedCategories = [])
    (hsort : filters.selectedSortMethod = none) (hrev : filters.isReversed = false) :
    ∃ ys, getPreparedProducts B xs filters = .ok ys ∧
      getPreparedProducts B ys filters = .ok ys := by
  refine ⟨_, prepared_unsorted B xs filters hsort hrev (fun u hu => absurd hu (huser u)), ?_⟩
  rw [prepared_unsorted B _ filters hsort hrev (fun u hu => absurd hu (huser u)),
    List.filter_filter]
  simp

/-- C9, at the specification's example with the query `"app"`. -/
theorem getPreparedProducts_query_idempotent_witness :
    ∃ ys, getPreparedProducts asciiBuiltins [bread, apple]
        { noFilters with query := "app" } = .ok ys ∧
      getPreparedProducts asciiBuiltins ys { noFilters with query := "app" } = .ok ys :=
  getPreparedProducts_query_idempotent asciiBuiltins [bread, apple]
    { noFilters with query := "app" } (by decide) (by intro u h; cases h) rfl rfl rfl

/-- C3. For a sort method that is `null` or one of the four valid ones, on a list
whose users are all resolved, `getPreparedProducts` with `isReversed = true`
returns the reverse of what it returns with `isReversed = false`; reversing that
once more gives the `isReversed = false` order back. -/
theorem getPreparedProducts_reversed (B : Builtins) (xs : List EnrichedProduct)
    (filters : Filters)
    (hm : filters.selectedSortMethod = none ∨
      ∃ m ∈ SORT_METHODS, filters.selectedSortMethod = some m)
    (hres : ∀ p ∈ xs, p.user ≠ none) :
    ∃ ys, getPreparedProducts B xs { filters with isReversed := false } = .ok ys ∧
      getPreparedProducts B xs { filters with isReversed := true } = .ok ys.reverse ∧
      ys.reverse.reverse = ys := by
  obtain ⟨ys, h1, h2⟩ := prepared_reverse B xs filters hm hres
  exact ⟨ys, h1, h2, List.reverse_reverse ys⟩

/-- C3, at the specification's example sorted by `Product`. -/
theorem getPreparedProducts_reversed_witness :
    ∃ ys, getPreparedProducts asciiBuiltins [bread, apple]
        { noFilters with selectedSortMethod := some "Product", isReversed := false } = .ok ys ∧
      getPreparedProducts asciiBuiltins [bread, apple]
        { noFilters with selectedSortMethod := some "Product", isReversed := true } =
          .ok ys.reverse ∧
      ys.reverse.reverse = ys :=
  getPreparedProducts_reversed asciiBuiltins [bread, apple]
    { noFilters with selectedSortMethod := some "Product" }
    (Or.inr ⟨"Product", by decide, rfl⟩) (by decide)

/-- C8, refuted. The empty string is a string that is not `null` and not one of
the four methods, yet `getPreparedProducts` returns the list, unsorted. -/
theorem getPreparedProducts_empty_method_counterexample :
    "" ∉ SORT_METHODS ∧
    getPreparedProducts asciiBuiltins [bread, apple]
      { noFilters with selectedSortMethod := some "" } = .ok [bread, apple] :=
  ⟨by decide, rfl⟩

/-- C8, amended. A sort method that is a non-empty string other than the four
valid ones makes `getPreparedProducts` fail; the empty string is falsy, so
the sort is skipped and the result is the one for no sort method. -/
theorem getPreparedProducts_invalid_method (B : Builtins) (xs : List EnrichedProduct)
    (filters : Filters) :
    (∀ m, filters.selectedSortMethod = some m → m ≠ "" → m ∉ SORT_METHODS →
      ∃ e, getPreparedProducts B xs filters = .error e) ∧
    (filters.selectedSortMethod = some "" →
      getPreparedProducts B xs filters =
        getPreparedProducts B xs { filters with selectedSortMethod := none }) := by
  constructor
  · intro m hm hne hnin
    unfold getPreparedProducts
    cases userStage filters.selectedUser xs with
    | error e => exact ⟨e, rfl⟩
    | ok zs =>
      refine ⟨.error "Invalid sort method", ?_⟩
      simp [hm, sortStage, hne, getSortedProducts_invalid B _ m hnin]
  · intro hm
    simp [getPreparedProducts, hm, sortStage]

/-- C8 amended, at the method `"Price"` and at the empty method. -/
theorem getPreparedProducts_invalid_method_witness :
    (∃ e, getPreparedProducts asciiBuiltins [bread, apple]
      { noFilters with selectedSortMethod := some "Price" } = .error e) ∧
    getPreparedProducts asciiBuiltins [bread, apple]
        { noFilters with selectedSortMethod := some "" } =
      getPreparedProducts asciiBuiltins [bread, apple]
        { noFilters with selectedSortMethod := none } :=
  ⟨(getPreparedProducts_invalid_method asciiBuiltins [bread, apple]
      { noFilters with selectedSortMethod := some "Price" }).1 "Price" rfl
      (by decide) (by decide),
   (getPreparedProducts_invalid_method asciiBuiltins [bread, apple]
      { noFilters with selectedSortMethod := some "" }).2 rfl⟩

/-! ## Sorting: stability of the sort under a consistent comparator -/

theorem insertionSort_stableAscending {κ : Type} (key : EnrichedProduct → κ)
    (cmp : κ → κ → Int) (hc : ConsistentComparator cmp) (xs : List EnrichedProduct) :
    StableAscending key (fun s t => decide (cmp s t ≤ 0)) xs
      (xs.insertionSort (fun a b => cmp (key a) (key b) ≤ 0)) := by
  obtain ⟨hanti, htrans⟩ := hc
  have htot : ∀ s t, cmp s t ≤ 0 ∨ cmp t s ≤ 0 := by
    intro s t
    by_cases h : cmp s t ≤ 0
    · exact Or.inl h
    · have := (hanti t s).mpr (by omega)
      exact Or.inr (by omega)
  haveI : IsTotal EnrichedProduct (fun a b => cmp (key a) (key b) ≤ 0) :=
    ⟨fun a b => htot (key a) (key b)⟩
  haveI : IsTrans EnrichedProduct (fun a b => cmp (key a) (key b) ≤ 0) :=
    ⟨fun a b c => htrans (key a) (key b) (key c)⟩
  refine ⟨List.perm_insertionSort _ xs, ?_, ?_⟩
  · have hs := List.sorted_insertionSort (fun a b => cmp (key a) (key b) ≤ 0) xs
    exact List.Pairwise.imp (fun h => by simpa using h) hs
  · intro k
    have hpair : (xs.filter (fun p => decide (cmp k (key p) ≤ 0) &&
        decide (cmp (key p) k ≤ 0))).Pairwise (fun a b => cmp (key a) (key b) ≤ 0) := by
      rw [List.pairwise_iff_forall_sublist]
      intro a b hab
      have ha : a ∈ xs.filter (fun p => decide (cmp k (key p) ≤ 0) &&
          decide (cmp (key p) k ≤ 0)) := hab.subset (by simp)
      have hb : b ∈ xs.filter (fun p => decide (cmp k (key p) ≤ 0) &&
          decide (cmp (key p) k ≤ 0)) := hab.subset (by simp)
      simp only [List.mem_filter, Bool.and_eq_true, decide_eq_true_eq] at ha hb
      exact htrans _ _ _ ha.2.2 hb.2.1
    have hsub := List.sublist_insertionSort (r := fun a b => cmp (key a) (key b) ≤ 0)
      hpair (List.filter_sublist xs)
    have hsub2 := hsub.filter (fun p => decide (cmp k (key p) ≤ 0) &&
        decide (cmp (key p) k ≤ 0))
    rw [List.filter_filter] at hsub2
    simp only [Bool.and_self] at hsub2
    have hlen := ((List.perm_insertionSort (fun a b => cmp (key a) (key b) ≤ 0) xs).filter
      (fun p => decide (cmp k (key p) ≤ 0) && decide (cmp (key p) k ≤ 0))).length_eq
    exact (hsub2.eq_of_length hlen.symm).symm

theorem consistent_sub : ConsistentComparator (fun i j : Int => i - j) :=
  ⟨fun s t => by
      show s - t < 0 ↔ 0 < t - s
      omega,
    fun s t u h1 h2 => by
      show s - u ≤ 0
      have h3 : s - t ≤ 0 := h1
      have h4 : t - u ≤ 0 := h2
      omega⟩

theorem codePointCompare_antisymm :
    ∀ s t : List Char, codePointCompare s t < 0 ↔ 0 < codePointCompare t s
  | [], [] => by simp [codePointCompare]
  | [], _ :: _ => by simp [codePointCompare]
  | _ :: _, [] => by simp [codePointCompare]
  | a :: s, b :: t => by
    have ih := codePointCompare_antisymm s t
    simp only [codePointCompare]
    split_ifs with h1 h2 <;> omega

theorem codePointCompare_trans :
    ∀ s t u : List Char, codePointCompare s t ≤ 0 → codePointCompare t u ≤ 0 →
      codePointCompare s u ≤ 0
  | [], _, [] => by simp [codePointCompare]
  | [], _, _ :: _ => by simp [codePointCompare]
  | _ :: _, [], _ => by simp [codePointCompare]
  | _ :: _, _ :: _, [] => by simp [codePointCompare]
  | a :: s, b :: t, c :: u => by
    have ih := codePointCompare_trans s t u
    simp only [codePointCompare]
    split_ifs <;> omega

theorem asciiBuiltins_consistent : ConsistentComparator asciiBuiltins.localeCompare :=
  ⟨fun s t => codePointCompare_antisymm s.data t.data,
   fun s t u => codePointCompare_trans s.data t.data u.data⟩

theorem ownerNameLe_resolved (B : Builtins) (a b : EnrichedProduct)
    (ha : a.user ≠ none) (hb : b.user ≠ none) :
    ownerNameLe B (a.user.map User.name) (b.user.map User.name) =
      decide (B.localeCompare ((a.user.map User.name).getD "")
        ((b.user.map User.name).getD "") ≤ 0) := by
  cases hua : a.user with
  | none => exact absurd hua ha
  | some ua =>
    cases hub : b.user with
    | none => exact absurd hub hb
    | some ub => rfl

theorem ownerNameLe_tie (B : Builtins) (s : String) (p : EnrichedProduct)
    (hp : p.user ≠ none) :
    (ownerNameLe B (some s) (p.user.map User.name) &&
      ownerNameLe B (p.user.map User.name) (some s)) =
    (decide (B.localeCompare s ((p.user.map User.name).getD "") ≤ 0) &&
      decide (B.localeCompare ((p.user.map User.name).getD "") s ≤ 0)) := by
  cases hu : p.user with
  | none => exact absurd hu hp
  | some u => rfl

theorem stableAscending_owner (B : Builtins) (xs ys : List EnrichedProduct)
    (hres : ∀ p ∈ xs, p.user ≠ none)
    (h : StableAscending (fun p => (p.user.map User.name).getD "")
      (fun s t => decide (B.localeCompare s t ≤ 0)) xs ys) :
    StableAscending (fun p => p.user.map User.name) (ownerNameLe B) xs ys := by
  obtain ⟨hperm, hsorted, hstable⟩ := h
  have hres2 : ∀ p ∈ ys, p.user ≠ none := fun p hp => hres p (hperm.subset hp)
  refine ⟨hperm, ?_, ?_⟩
  · apply List.Pairwise.imp_of_mem _ hsorted
    intro a b ha hb hab
    rw [ownerNameLe_resolved B a b (hres2 a ha) (hres2 b hb)]
    exact hab
  · intro k
    cases k with
    | none =>
      have h1 : ∀ l : List EnrichedProduct, l.filter (fun p =>
          ownerNameLe B none (p.user.map User.name) &&
            ownerNameLe B (p.user.map User.name) none) = [] := by
        intro l
        rw [List.filter_eq_nil_iff]
        intro p _
        simp [ownerNameLe]
      rw [h1, h1]
    | some s =>
      rw [List.filter_congr (fun p hp => ownerNameLe_tie B s p (hres2 p hp)),
        List.filter_congr (fun p hp => ownerNameLe_tie B s p (hres p hp))]
      exact hstable s

/-! ## Sorting: claim -/

/-- C2. For a consistent `localeCompare` and a list whose users are all
resolved, each of the four methods makes `getSortedProducts` return a
permutation of its input that is non-decreasing in the method's key (the
product id as a number; the product name, the category title, the owner name
under `localeCompare`), with the records whose keys tie kept in their input
order. -/
theorem getSortedProducts_stable_ascending (B : Builtins)
    (hB : ConsistentComparator B.localeCompare) (xs : List EnrichedProduct)
    (hres : ∀ p ∈ xs, p.user ≠ none) :
    (∃ ys, getSortedProducts B xs "ID" = .ok ys ∧
      StableAscending (fun p => p.id) (fun i j => decide (i ≤ j)) xs ys) ∧
    (∃ ys, getSortedProducts B xs "Product" = .ok ys ∧
      StableAscending (fun p => p.name) (nameLe B) xs ys) ∧
    (∃ ys, getSortedProducts B xs "Category" = .ok ys ∧
      StableAscending (fun p => p.category.title) (nameLe B) xs ys) ∧
    (∃ ys, getSortedProducts B xs "User" = .ok ys ∧
      StableAscending (fun p => p.user.map User.name) (ownerNameLe B) xs ys) := by
  have hle : (fun i j : Int => decide (i - j ≤ 0)) = fun i j => decide (i ≤ j) := by
    funext i j
    exact decide_eq_decide.mpr (by omega)
  have hid := insertionSort_stableAscending (fun p => p.id) (fun i j : Int => i - j)
    consistent_sub xs
  rw [hle] at hid
  exact
    ⟨⟨xs.insertionSort (fun a b => a.id - b.id ≤ 0),
      arraySort_pure compareId (fun a b => a.id - b.id) xs (fun _ _ _ _ => rfl), hid⟩,
     ⟨xs.insertionSort (fun a b => B.localeCompare a.name b.name ≤ 0),
      arraySort_pure (compareName B) (fun a b => B.localeCompare a.name b.name) xs
        (fun _ _ _ _ => rfl),
      insertionSort_stableAscending (fun p => p.name) B.localeCompare hB xs⟩,
     ⟨xs.insertionSort (fun a b => B.localeCompare a.category.title b.category.title ≤ 0),
      arraySort_pure (compareCategory B)
        (fun a b => B.localeCompare a.category.title b.category.title) xs
        (fun _ _ _ _ => rfl),
      insertionSort_stableAscending (fun p => p.category.title) B.localeCompare hB xs⟩,
     ⟨xs.insertionSort (fun a b => B.localeCompare ((a.user.map User.name).getD "")
        ((b.user.map User.name).getD "") ≤ 0),
      arraySort_pure (compareUser B)
        (fun a b => B.localeCompare ((a.user.map User.name).getD "")
          ((b.user.map User.name).getD "")) xs
        (fun a ha b hb => compareUser_pure B a b (hres a ha) (hres b hb)),
      stableAscending_owner B xs _ hres
        (insertionSort_stableAscending (fun p => (p.user.map User.name).getD "")
          B.localeCompare hB xs)⟩⟩

/-- C2, at the specification's example: sorted by `Product`, Apple comes
before Bread. -/
theorem getSortedProducts_stable_ascending_witness :
    getSortedProducts asciiBuiltins [bread, apple] "Product" = .ok [apple, bread] ∧
    ∃ ys, getSortedProducts asciiBuiltins [bread, apple] "Product" = .ok ys ∧
      StableAscending (fun p => p.name) (nameLe asciiBuiltins) [bread, apple] ys :=
  ⟨rfl, (getSortedProducts_stable_ascending asciiBuiltins asciiBuiltins_consistent
    [bread, apple] (by decide)).2.1⟩

end App
